import Mathlib

/-!
Verification of the Source Registry & Reconciliation Engine of
`src/system_update.py` (System Update Enhanced v5.0.0).

The Python source is shallowly embedded below: pure fragments become Lean
functions, the outcome of an external process is an explicit `ProcOutcome`
value, the on-disk cache becomes an explicit `CacheState`, and wall-clock
times are integers.  Every definition is translated from the source file
(line numbers are cited next to each definition).
-/

/-- The `UpdateStatus` enum, `system_update.py` lines 118-126.  The emoji
strings are the Python enum values, used when (de)serialising the cache. -/
inductive UpdateStatus where
  | UP_TO_DATE
  | UPDATE_AVAILABLE
  | UNKNOWN
  | ERROR
  | VULNERABLE
  | SECURITY_UPDATE_AVAILABLE
deriving DecidableEq, Repr

/-- The `UpdateStatus.value` string of each enum member (lines 121-126). -/
def statusValue : UpdateStatus → String
  | .UP_TO_DATE => "✅"
  | .UPDATE_AVAILABLE => "⬆️"
  | .UNKNOWN => "❓"
  | .ERROR => "❌"
  | .VULNERABLE => "🔥"
  | .SECURITY_UPDATE_AVAILABLE => "🔒"

/-- The `UpdateStatus(value)` lookup, as performed by `CacheManager.load`
(line 306); an unrecognised value raises in Python, modelled by `none`. -/
def statusOfValue (s : String) : Option UpdateStatus :=
  if s = "✅" then some .UP_TO_DATE
  else if s = "⬆️" then some .UPDATE_AVAILABLE
  else if s = "❓" then some .UNKNOWN
  else if s = "❌" then some .ERROR
  else if s = "🔥" then some .VULNERABLE
  else if s = "🔒" then some .SECURITY_UPDATE_AVAILABLE
  else none

/-- The `AppInfo` dataclass, lines 129-157.  `scan_time` is a `datetime`
in Python; its value never influences control flow, so it is embedded
as an integer timestamp. -/
structure AppInfo where
  name : String
  source : String
  version : String
  latest_version : String := ""
  app_id : Option String := none
  update_status : UpdateStatus := UpdateStatus.UNKNOWN
  error_msg : Option String := none
  install_path : Option String := none
  scan_time : Int := 0
deriving DecidableEq, Repr

/-! ### Python string primitives

The adapters manipulate version strings with `str.strip`, `str.split`,
`x in y` (substring test) and the regex `^[^\d]+`.  These are embedded
as executable functions on `List Char`. -/

/-- The whitespace characters removed by Python `str.strip()`. -/
def isSpaceChar (c : Char) : Bool :=
  c == ' ' || c == '\t' || c == '\n' || c == '\r' || c == '\x0b' || c == '\x0c'

/-- Python `str.strip()` on a character list. -/
def stripChars (l : List Char) : List Char :=
  ((l.dropWhile isSpaceChar).reverse.dropWhile isSpaceChar).reverse

/-- Python `str.strip()`. -/
def pyStrip (s : String) : String :=
  String.mk (stripChars s.toList)

/-- Split a character list on a separator character, keeping empty pieces,
like Python `str.split(sep)` with a one-character separator. -/
def splitChar (sep : Char) : List Char → List (List Char)
  | [] => [[]]
  | c :: cs =>
    match splitChar sep cs with
    | [] => if c == sep then [[], []] else [[c]]
    | g :: gs => if c == sep then [] :: g :: gs else (c :: g) :: gs

/-- Python `s.split(sep)` for a one-character separator. -/
def pySplit (sep : Char) (s : String) : List String :=
  (splitChar sep s.toList).map String.mk

/-- Python `str.splitlines()` restricted to `\n`-separated text, which is
the shape of all the command output the checkers parse. -/
def pySplitLines (s : String) : List String :=
  pySplit '\n' s

/-- Whether `p` occurs at the start of `s` (helper for the substring test). -/
def charsLeading : List Char → List Char → Bool
  | [], _ => true
  | _ :: _, [] => false
  | p :: ps, c :: cs => p == c && charsLeading ps cs

/-- Whether `p` occurs somewhere inside `s` (helper for the substring test). -/
def charsWithin (p : List Char) : List Char → Bool
  | [] => charsLeading p []
  | c :: cs => charsLeading p (c :: cs) || charsWithin p cs

/-- Python `needle in hay` on strings (substring containment). -/
def strWithin (needle hay : String) : Bool :=
  charsWithin needle.toList hay.toList

/-- The cleanup `re.sub(r'^[^\d]+', '', s).strip()` — strip any non-digit prefix and
surrounding whitespace, used at lines 1190-1191. -/
def cleanVer (s : String) : String :=
  pyStrip (String.mk (s.toList.dropWhile (fun c => !c.isDigit)))

/-! ### Process Invoker (`run_command`, lines 339-369) -/

/-- What happened to the spawned subprocess: it completed with an exit
code and captured streams, it exceeded the timeout, or the executable
was not found. -/
inductive ProcOutcome where
  | completed (exitCode : Int) (stdout stderr : String)
  | timedOut
  | notFound
deriving DecidableEq

/-- The invoker `run_command(cmd, timeout, allow_failure, include_stderr)`,
lines 339-369.  `None` is modelled by `Option.none`; the Windows
`shutil.which` rewrite of `cmd[0]` does not affect the returned value. -/
def run_command (o : ProcOutcome) (allow_failure include_stderr : Bool) :
    Option String :=
  match o with
  | .completed exitCode stdout stderr =>
    if exitCode ≠ 0 ∧ allow_failure = false then none
    else if include_stderr then
      let combined := pyStrip (stdout ++ "\n" ++ stderr)
      if combined = "" then none else some combined
    else
      let s := pyStrip stdout
      if s = "" then none else some s
  | .timedOut => none
  | .notFound => none

/-- Claim C5: for every invocation of the Process Invoker, a nonzero exit
code yields the "no result" value (`none`) unless `allow_failure` is set,
in which case the stripped stdout — or stripped stdout+stderr when
`include_stderr` is set — is returned if non-empty; and a timeout or an
executable-not-found condition each yield the same `none` rather than
raising. -/
theorem C5_run_command (exitCode : Int) (stdout stderr : String)
    (allow_failure include_stderr : Bool) (h : exitCode ≠ 0) :
    run_command (.completed exitCode stdout stderr) false include_stderr = none
  ∧ run_command (.completed exitCode stdout stderr) true false =
      (if pyStrip stdout = "" then none else some (pyStrip stdout))
  ∧ run_command (.completed exitCode stdout stderr) true true =
      (if pyStrip (stdout ++ "\n" ++ stderr) = "" then none
       else some (pyStrip (stdout ++ "\n" ++ stderr)))
  ∧ run_command .timedOut allow_failure include_stderr = none
  ∧ run_command .notFound allow_failure include_stderr = none := by
  refine ⟨?_, ?_, ?_, rfl, rfl⟩
  · simp [run_command, h]
  · simp [run_command]
  · simp [run_command]

/-- Witness for C5 at a concrete failed invocation. -/
theorem C5_witness :
    (1 : Int) ≠ 0
  ∧ run_command (.completed 1 "out" "err") false false = none
  ∧ run_command (.completed 1 "out" "err") true false = some "out"
  ∧ run_command .timedOut false false = none := by
  have h := C5_run_command 1 "out" "err" false false (by decide)
  refine ⟨by decide, h.1, ?_, h.2.2.2.1⟩
  have h2 := h.2.1
  rw [h2]
  decide

/-! ### Snapshot cache (`CacheManager`, lines 277-332)

The JSON file written by `save` is embedded as an explicit `CacheState`;
`datetime.now()` at save / load time is passed in as an integer, and the
TTL `timedelta(hours=duration_hours)` as an integer in the same unit. -/

/-- One entry of the `apps` array of the cache file, as produced by
`AppInfo.to_dict` (lines 152-157): every dataclass field, with the status
replaced by its enum value string.  The derived `has_update` field is
written by `save` and popped again by `load` (line 305), so it is not
part of the round-tripped record. -/
structure CachedApp where
  name : String
  source : String
  version : String
  latest_version : String
  app_id : Option String
  statusVal : String
  error_msg : Option String
  install_path : Option String
  scan_time : Int
deriving DecidableEq

/-- Serialisation `AppInfo.to_dict`, lines 152-157. -/
def appToDict (a : AppInfo) : CachedApp :=
  { name := a.name, source := a.source, version := a.version,
    latest_version := a.latest_version, app_id := a.app_id,
    statusVal := statusValue a.update_status, error_msg := a.error_msg,
    install_path := a.install_path, scan_time := a.scan_time }

/-- Rebuilding one `AppInfo` from a cache entry, lines 305-308
(`UpdateStatus(item["update_status"])` raises on a bad value, which the
surrounding `except` turns into a failed load). -/
def appOfDict (c : CachedApp) : Option AppInfo :=
  (statusOfValue c.statusVal).map (fun st =>
    { name := c.name, source := c.source, version := c.version,
      latest_version := c.latest_version, app_id := c.app_id,
      update_status := st, error_msg := c.error_msg,
      install_path := c.install_path, scan_time := c.scan_time })

/-- Rebuilding the whole app list; any bad entry fails the whole load
(the `except` at line 310 catches mid-loop and returns `None`). -/
def loadApps : List CachedApp → Option (List AppInfo)
  | [] => some []
  | c :: cs =>
    match appOfDict c, loadApps cs with
    | some a, some rest => some (a :: rest)
    | _, _ => none

/-- The cache file contents written by `CacheManager.save`, lines 314-326
(the `version` and `total_apps` metadata fields play no role in `load`). -/
structure CacheState where
  timestamp : Int
  apps : List CachedApp
deriving DecidableEq

/-- Model of `CacheManager.save(apps)` at time `now`, lines 314-326. -/
def cacheSave (now : Int) (apps : List AppInfo) : CacheState :=
  { timestamp := now, apps := apps.map appToDict }

/-- Model of `CacheManager.is_valid`, lines 284-294: a missing or unparsable file
is invalid, otherwise valid iff `now - timestamp < duration`. -/
def cacheIsValid (duration : Int) (st : Option CacheState) (now : Int) : Bool :=
  match st with
  | none => false
  | some s => decide (now - s.timestamp < duration)

/-- Model of `CacheManager.load`, lines 296-312. -/
def cacheLoad (duration : Int) (st : Option CacheState) (now : Int) :
    Option (List AppInfo) :=
  if cacheIsValid duration st now then
    match st with
    | none => none
    | some s => loadApps s.apps
  else none

theorem appOfDict_appToDict (a : AppInfo) : appOfDict (appToDict a) = some a := by
  cases a with
  | mk name source version latest_version app_id update_status
      error_msg install_path scan_time =>
    cases update_status <;> rfl

theorem loadApps_map_appToDict (apps : List AppInfo) :
    loadApps (apps.map appToDict) = some apps := by
  induction apps with
  | nil => rfl
  | cons a rest ih => simp [loadApps, appOfDict_appToDict, ih]

/-- Claim C4: for every list of items, cache save followed by cache load
while the snapshot is still within the TTL window returns the item list
unchanged — in particular equal to the input by name, source, version
and status — and load after the TTL has expired returns `none`. -/
theorem C4_cache_roundtrip (duration t0 t1 : Int) (apps : List AppInfo) :
    (t1 - t0 < duration →
      cacheLoad duration (some (cacheSave t0 apps)) t1 = some apps
      ∧ (cacheLoad duration (some (cacheSave t0 apps)) t1).map
          (List.map (fun a => (a.name, a.source, a.version, a.update_status))) =
        some (apps.map (fun a => (a.name, a.source, a.version, a.update_status))))
  ∧ (¬ t1 - t0 < duration →
      cacheLoad duration (some (cacheSave t0 apps)) t1 = none) := by
  constructor
  · intro h
    have hload : cacheLoad duration (some (cacheSave t0 apps)) t1 = some apps := by
      simp [cacheLoad, cacheIsValid, cacheSave, h, loadApps_map_appToDict]
    exact ⟨hload, by rw [hload]; rfl⟩
  · intro h
    simp [cacheLoad, cacheIsValid, cacheSave, h]

/-- A sample item used to witness the cache round-trip. -/
def cacheDemoApp : AppInfo :=
  { name := "git", source := "PATH", version := "2.39.0" }

/-- Witness for C4: a one-item list, TTL 2, saved at time 0, loaded at
times 1 (hit) and 3 (expired). -/
theorem C4_witness :
    ((1 : Int) - 0 < 2
      ∧ cacheLoad 2 (some (cacheSave 0 [cacheDemoApp])) 1 = some [cacheDemoApp])
  ∧ (¬ (3 : Int) - 0 < 2
      ∧ cacheLoad 2 (some (cacheSave 0 [cacheDemoApp])) 3 = none) := by
  refine ⟨⟨by decide, ?_⟩, ⟨by decide, ?_⟩⟩
  · exact ((C4_cache_roundtrip 2 0 1 _).1 (by decide)).1
  · exact (C4_cache_roundtrip 2 0 3 _).2 (by decide)

/-! ### Update Resolver reconciliation (`check_all_updates`, lines 876-890) -/

/-- The sources whose batch check is treated as exhaustive by the
reconciliation pass, line 884. -/
def checkedSources : List String :=
  ["Winget", "Chocolatey", "NPM", "PNPM", "Bun", "Yarn", "PIP", "Registry"]

/-- All source tags produced by the scanners (lines 579, 604, 627, 654,
678, 700, 723, 764, 802). -/
def allSources : List String :=
  ["Winget", "Chocolatey", "NPM", "PNPM", "Bun", "Yarn", "PIP", "PATH", "Registry"]

/-- The per-item reconciliation applied after every adapter's check,
lines 877-887: leave `UPDATE_AVAILABLE` and `UP_TO_DATE` untouched;
otherwise mark `UP_TO_DATE` when a latest version was recorded or the
source performs an exhaustive check, else `UNKNOWN`. -/
def reconcileApp (a : AppInfo) : AppInfo :=
  if a.update_status = UpdateStatus.UPDATE_AVAILABLE then a
  else if a.update_status = UpdateStatus.UP_TO_DATE then a
  else if a.latest_version ≠ "" ∨ a.source ∈ checkedSources then
    { a with update_status := UpdateStatus.UP_TO_DATE }
  else
    { a with update_status := UpdateStatus.UNKNOWN }

/-- Claim C3: after all per-source checks, reconciliation leaves every
item already marked `UPDATE_AVAILABLE` or `UP_TO_DATE` unchanged; sets
every other item to `UP_TO_DATE` if it has a non-empty latest version or
belongs to any source other than the PATH probe; and otherwise leaves
its status `UNKNOWN`. -/
theorem C3_reconcile (a : AppInfo) (hs : a.source ∈ allSources) :
    ((a.update_status = UpdateStatus.UPDATE_AVAILABLE
        ∨ a.update_status = UpdateStatus.UP_TO_DATE) → reconcileApp a = a)
  ∧ (a.update_status ≠ UpdateStatus.UPDATE_AVAILABLE →
     a.update_status ≠ UpdateStatus.UP_TO_DATE →
       ((a.latest_version ≠ "" ∨ a.source ≠ "PATH") →
           (reconcileApp a).update_status = UpdateStatus.UP_TO_DATE)
     ∧ ((a.latest_version = "" ∧ a.source = "PATH") →
           (reconcileApp a).update_status = UpdateStatus.UNKNOWN)) := by
  refine ⟨?_, ?_⟩
  · rintro (h | h) <;> simp [reconcileApp, h]
  · intro h1 h2
    constructor
    · rintro (h3 | h3)
      · simp [reconcileApp, h1, h2, h3]
      · have hmem : a.source ∈ checkedSources := by
          simp only [allSources, List.mem_cons, List.not_mem_nil, or_false] at hs
          rcases hs with h | h | h | h | h | h | h | h | h <;>
            first
              | (exact absurd h h3)
              | (rw [h]; decide)
        simp [reconcileApp, h1, h2, hmem]
    · rintro ⟨h3, h4⟩
      have hmem : a.source ∉ checkedSources := by rw [h4]; decide
      simp [reconcileApp, h1, h2, h3, hmem]

/-- A PIP item left `UNKNOWN` by its adapter, used in the C3 witness. -/
def reconDemoPip : AppInfo :=
  { name := "requests", source := "PIP", version := "2.31.0" }

/-- Witness for C3: a PIP item left `UNKNOWN` by its adapter with no
latest version is reconciled to `UP_TO_DATE`. -/
theorem C3_witness :
    reconDemoPip.source ∈ allSources
  ∧ (reconcileApp reconDemoPip).update_status = UpdateStatus.UP_TO_DATE := by
  refine ⟨by decide, ?_⟩
  exact ((C3_reconcile reconDemoPip (by decide)).2 (by decide) (by decide)).1
    (Or.inr (by decide))

/-- Claim C9: reconciliation — the last operation applied to every item
of the scan-and-check pipeline — only ever yields the statuses
`UP_TO_DATE`, `UPDATE_AVAILABLE` or `UNKNOWN`; the `VULNERABLE` and
`SECURITY_UPDATE_AVAILABLE` members of the enum are never assigned. -/
theorem C9_status_range (a : AppInfo) :
    (reconcileApp a).update_status ∈
      [UpdateStatus.UP_TO_DATE, UpdateStatus.UPDATE_AVAILABLE,
       UpdateStatus.UNKNOWN] := by
  unfold reconcileApp
  split_ifs with h1 h2 h3
  · simp [h1]
  · simp [h2]
  · simp
  · simp

/-- A PATH item whose adapter produced no signal, used in the C9 witness. -/
def reconDemoDeno : AppInfo :=
  { name := "deno", source := "PATH", version := "1.40.0" }

/-- Witness for C9 at a concrete item whose adapter produced no signal. -/
theorem C9_witness :
    (reconcileApp reconDemoDeno).update_status ∈
      [UpdateStatus.UP_TO_DATE, UpdateStatus.UPDATE_AVAILABLE,
       UpdateStatus.UNKNOWN] :=
  C9_status_range reconDemoDeno

/-! ### PATH tool update check (`_check_path_updates`, lines 1129-1200)

For each PATH tool the adapter obtains one candidate version string
`latest` (from a dry-run upgrade, a registry view, or a hosting API);
the decision applied to the item once a candidate exists is lines
1189-1197. -/

/-- The per-item decision of `_check_path_updates`, lines 1189-1197: when
`latest` is non-empty, strip non-digit prefixes from both strings, store
the cleaned candidate, and mark `UPDATE_AVAILABLE` only when the cleaned
strings differ and the cleaned candidate is not a substring of the
installed version; otherwise mark `UP_TO_DATE`.  An empty candidate
leaves the item untouched (`if latest:` guard). -/
def pathApply (a : AppInfo) (latest : String) : AppInfo :=
  if latest = "" then a
  else
    let clean_version := cleanVer a.version
    let clean_latest := cleanVer latest
    if clean_latest ≠ clean_version ∧ strWithin clean_latest a.version = false then
      { a with latest_version := clean_latest,
               update_status := UpdateStatus.UPDATE_AVAILABLE }
    else
      { a with latest_version := clean_latest,
               update_status := UpdateStatus.UP_TO_DATE }

/-- Claim C6: for every PATH-probed tool whose check produced a candidate
version, the decision strips any non-digit prefix from both installed and
candidate versions before testing inequality, and marks the item
`UP_TO_DATE` (not `UPDATE_AVAILABLE`) whenever the cleaned candidate is a
substring of the already-installed version string. -/
theorem C6_path_comparison (a : AppInfo) (latest : String) (h : latest ≠ "") :
    (pathApply a latest).latest_version = cleanVer latest
  ∧ (strWithin (cleanVer latest) a.version = true →
      (pathApply a latest).update_status = UpdateStatus.UP_TO_DATE)
  ∧ ((pathApply a latest).update_status = UpdateStatus.UPDATE_AVAILABLE ↔
      (cleanVer latest ≠ cleanVer a.version
        ∧ strWithin (cleanVer latest) a.version = false)) := by
  unfold pathApply
  rw [if_neg h]
  by_cases hc : cleanVer latest ≠ cleanVer a.version
      ∧ strWithin (cleanVer latest) a.version = false
  · rw [if_pos hc]
    refine ⟨rfl, ?_, by simp [hc]⟩
    intro hw
    rw [hc.2] at hw
    cases hw
  · rw [if_neg hc]
    exact ⟨rfl, fun _ => rfl, by simp [hc]⟩

/-- A PATH-discovered git item used in the C6 witness. -/
def pathDemoApp : AppInfo :=
  { name := "git", source := "PATH", version := "2.39.0" }

/-- Witness for C6: candidate `2.40.0` against installed `2.39.0`. -/
theorem C6_witness :
    ("2.40.0" : String) ≠ ""
  ∧ (pathApply pathDemoApp "2.40.0").latest_version = cleanVer "2.40.0"
  ∧ ((pathApply pathDemoApp "2.40.0").update_status = UpdateStatus.UPDATE_AVAILABLE ↔
      (cleanVer "2.40.0" ≠ cleanVer pathDemoApp.version
        ∧ strWithin (cleanVer "2.40.0") pathDemoApp.version = false)) := by
  have h := C6_path_comparison pathDemoApp "2.40.0" (by decide)
  exact ⟨by decide, h.1, h.2.2⟩

/-! ### Chocolatey update check (`_check_choco_updates`, lines 998-1015) -/

/-- Model of `_check_choco_updates`: parse every `|`-separated line of
`choco outdated --limit-output`; for a line with at least three fields,
every item whose name equals field 0 gets field 2 as latest version and
is marked `UPDATE_AVAILABLE`, counting one update per match — with no
comparison against the installed version and no emptiness check on the
field.  A `None` command result returns the items unchanged. -/
def checkChoco (output : Option String) (apps : List AppInfo) :
    List AppInfo × Nat :=
  match output with
  | none => (apps, 0)
  | some out =>
    (pySplitLines out).foldl
      (fun st line =>
        match pySplit '|' line with
        | p0 :: _ :: p2 :: _ =>
          (st.1.map (fun a =>
            if a.name = p0 then
              { a with latest_version := p2,
                       update_status := UpdateStatus.UPDATE_AVAILABLE }
            else a),
           st.2 + st.1.countP (fun a => a.name == p0))
        | _ => st)
      (apps, 0)

/-- The Chocolatey item of the C2 counterexample. -/
def chocoApp : AppInfo :=
  { name := "foo", source := "Chocolatey", version := "1.0.0" }

/-- Counterexample to claim C2 as stated: when `choco outdated` reports
`foo|1.0.0|1.0.0` for an installed `foo 1.0.0`, the item ends the update
check (adapter check followed by reconciliation) marked
`UPDATE_AVAILABLE` although its latest version equals its installed
version — the digit-prefix-stripped strings are equal, so the claimed
comparison rule does not hold for it. -/
theorem C2_counterexample :
    ((checkChoco (some "foo|1.0.0|1.0.0") [chocoApp]).1.map reconcileApp) =
      [{ chocoApp with latest_version := "1.0.0",
                       update_status := UpdateStatus.UPDATE_AVAILABLE }]
  ∧ chocoApp.version = "1.0.0"
  ∧ cleanVer "1.0.0" = cleanVer chocoApp.version := by decide

/-- Reconciliation never produces `UPDATE_AVAILABLE` on an item that did
not already carry it. -/
theorem reconcile_ua_of_ua (a : AppInfo)
    (h : (reconcileApp a).update_status = UpdateStatus.UPDATE_AVAILABLE) :
    a.update_status = UpdateStatus.UPDATE_AVAILABLE := by
  by_contra hne
  unfold reconcileApp at h
  rw [if_neg hne] at h
  by_cases h2 : a.update_status = UpdateStatus.UP_TO_DATE
  · rw [if_pos h2] at h
    rw [h2] at h
    cases h
  · rw [if_neg h2] at h
    split_ifs at h

/-- The empty string is a substring of every string. -/
theorem strWithin_empty (hay : String) : strWithin "" hay = true := by
  unfold strWithin
  cases hay.toList with
  | nil => rfl
  | cons c cs => simp [charsWithin, charsLeading]

/-- Claim C2, amended: the stated invariant holds for the PATH adapter —
for an item entering the check `UNKNOWN` (as discovery creates it), if it
is `UPDATE_AVAILABLE` after the PATH decision and reconciliation, then
its latest version is non-empty, differs from the digit-prefix-stripped
installed version, and is not a substring of the installed version
string.  (Table/manifest adapters copy the manager's outdated output
without this comparison, as the counterexample shows.) -/
theorem C2_path_invariant (a : AppInfo) (latest : String)
    (h0 : a.update_status = UpdateStatus.UNKNOWN)
    (hua : (reconcileApp (pathApply a latest)).update_status =
      UpdateStatus.UPDATE_AVAILABLE) :
    (reconcileApp (pathApply a latest)).latest_version ≠ ""
  ∧ (reconcileApp (pathApply a latest)).latest_version ≠ cleanVer a.version
  ∧ strWithin (reconcileApp (pathApply a latest)).latest_version a.version
      = false := by
  have hpa : (pathApply a latest).update_status = UpdateStatus.UPDATE_AVAILABLE :=
    reconcile_ua_of_ua _ hua
  have hrec : reconcileApp (pathApply a latest) = pathApply a latest := by
    unfold reconcileApp
    rw [if_pos hpa]
  rw [hrec]
  by_cases hl : latest = ""
  · rw [hl] at hpa
    unfold pathApply at hpa
    rw [if_pos rfl] at hpa
    rw [h0] at hpa
    cases hpa
  · unfold pathApply at hpa ⊢
    rw [if_neg hl] at hpa ⊢
    by_cases hc : cleanVer latest ≠ cleanVer a.version
        ∧ strWithin (cleanVer latest) a.version = false
    · rw [if_pos hc]
      refine ⟨?_, hc.1, hc.2⟩
      intro he
      have he' : cleanVer latest = "" := he
      have h2 := hc.2
      rw [he', strWithin_empty a.version] at h2
      simp at h2
    · rw [if_neg hc] at hpa
      cases hpa

/-- The PATH-probed bun item of the C2 witness. -/
def c2DemoApp : AppInfo :=
  { name := "bun", source := "PATH", version := "1.0.0" }

/-- Witness for the amended C2 at a concrete PATH item with candidate
`2.0.0` against installed `1.0.0`. -/
theorem C2_witness :
    c2DemoApp.update_status = UpdateStatus.UNKNOWN
  ∧ (reconcileApp (pathApply c2DemoApp "2.0.0")).update_status =
      UpdateStatus.UPDATE_AVAILABLE
  ∧ (reconcileApp (pathApply c2DemoApp "2.0.0")).latest_version ≠ ""
  ∧ (reconcileApp (pathApply c2DemoApp "2.0.0")).latest_version ≠
      cleanVer c2DemoApp.version
  ∧ strWithin (reconcileApp (pathApply c2DemoApp "2.0.0")).latest_version
      c2DemoApp.version = false := by
  have hua : (reconcileApp (pathApply c2DemoApp "2.0.0")).update_status =
      UpdateStatus.UPDATE_AVAILABLE := by decide
  have h := C2_path_invariant c2DemoApp "2.0.0" (by decide) hua
  exact ⟨by decide, hua, h.1, h.2.1, h.2.2⟩

/-! ### NPM update check (`_check_npm_updates`, lines 1017-1038)

`npm outdated -g --json` yields a JSON object mapping package names to
records; the checker walks its entries and, for every item whose name
matches an entry with a non-empty `latest` field, records that latest
version, marks the item `UPDATE_AVAILABLE`, and counts one update per
match.  The parsed JSON is embedded as an association list of
`(name, latest)`, where `latest` is `details.get("latest", "")`. -/

/-- One entry of the outdated map applied to the running state
(lines 1027-1034). -/
def checkNpmEntry (st : List AppInfo × Nat) (entry : String × String) :
    List AppInfo × Nat :=
  (st.1.map (fun a =>
    if a.name = entry.1 ∧ entry.2 ≠ "" then
      { a with latest_version := entry.2,
               update_status := UpdateStatus.UPDATE_AVAILABLE }
    else a),
   st.2 + st.1.countP (fun a => a.name == entry.1 && entry.2 != ""))

/-- Model of `_check_npm_updates` over the parsed outdated map. -/
def checkNpm (data : List (String × String)) (apps : List AppInfo) :
    List AppInfo × Nat :=
  data.foldl checkNpmEntry (apps, 0)

/-- A list is unchanged by mapping a function that fixes each member. -/
theorem listMapFixed {α : Type} (f : α → α) (l : List α) (h : ∀ b ∈ l, f b = b) :
    l.map f = l := by
  induction l with
  | nil => rfl
  | cons x xs ih =>
    rw [List.map_cons, h x (List.mem_cons_self x xs),
        ih (fun b hb => h b (List.mem_cons_of_mem x hb))]

/-- One outdated entry applied to a list containing exactly one item with
the entry's name: only that item is rewritten, and the count rises by 1. -/
theorem checkNpmEntry_unique (pre suf : List AppInfo) (a : AppInfo)
    (name latest : String) (ha : a.name = name) (hl : latest ≠ "")
    (hpre : ∀ b ∈ pre, b.name ≠ name) (hsuf : ∀ b ∈ suf, b.name ≠ name)
    (n : Nat) :
    checkNpmEntry (pre ++ a :: suf, n) (name, latest) =
      (pre ++ { a with latest_version := latest,
                       update_status := UpdateStatus.UPDATE_AVAILABLE } :: suf,
       n + 1) := by
  unfold checkNpmEntry
  congr 1
  · rw [List.map_append, List.map_cons]
    rw [listMapFixed _ pre (fun b hb => if_neg (by simp [hpre b hb]))]
    rw [listMapFixed _ suf (fun b hb => if_neg (by simp [hsuf b hb]))]
    rw [if_pos (by exact ⟨ha, hl⟩)]
  · rw [List.countP_append, List.countP_cons]
    rw [List.countP_eq_zero.mpr (fun b hb => by simp [hpre b hb])]
    rw [List.countP_eq_zero.mpr (fun b hb => by simp [hsuf b hb])]
    have hga : (a.name == (name, latest).1 && (name, latest).2 != "") = true := by
      simp [ha, hl]
    rw [if_pos hga]

/-- Claim C7: if the manifest manager's outdated command returns
`{"foo": {"latest": "2.0.0"}}` and the item list contains exactly one
item named `foo`, at version `1.0.0`, then after the check that item has
latest version `2.0.0` and status `UPDATE_AVAILABLE`, all other items are
untouched, and the returned update count is exactly 1. -/
theorem C7_npm_scenario (pre suf : List AppInfo) (a : AppInfo)
    (ha : a.name = "foo") (hv : a.version = "1.0.0")
    (hpre : ∀ b ∈ pre, b.name ≠ "foo") (hsuf : ∀ b ∈ suf, b.name ≠ "foo") :
    checkNpm [("foo", "2.0.0")] (pre ++ a :: suf) =
      (pre ++ { a with latest_version := "2.0.0",
                       update_status := UpdateStatus.UPDATE_AVAILABLE } :: suf,
       1) := by
  unfold checkNpm
  rw [List.foldl_cons, List.foldl_nil]
  exact checkNpmEntry_unique pre suf a "foo" "2.0.0" ha (by decide) hpre hsuf 0

/-- The NPM item of the C7 witness. -/
def npmDemoApp : AppInfo :=
  { name := "foo", source := "NPM", version := "1.0.0", app_id := some "foo" }

/-- Witness for C7 with a one-item list. -/
theorem C7_witness :
    npmDemoApp.name = "foo"
  ∧ npmDemoApp.version = "1.0.0"
  ∧ checkNpm [("foo", "2.0.0")] [npmDemoApp] =
      ([{ npmDemoApp with latest_version := "2.0.0",
                          update_status := UpdateStatus.UPDATE_AVAILABLE }],
       1) := by
  refine ⟨rfl, rfl, ?_⟩
  exact C7_npm_scenario [] [] npmDemoApp rfl rfl
    (fun b hb => absurd hb (List.not_mem_nil b))
    (fun b hb => absurd hb (List.not_mem_nil b))

/-! ### Update Dispatcher (`UpdateExecutor`, lines 1208-1316)

`_execute_single_update` builds one upgrade command per source and runs
it through the Process Invoker; `execute_updates` walks the selected
items, short-circuiting every invocation in dry-run mode.  The invoker is
abstracted as a `runner` oracle from argv to `run_command`'s result, and
the commands actually handed to it are collected so that "never invokes
the Process Invoker" is a statement about the output. -/

/-- The Python interpreter path `sys.executable`. -/
def pythonExe : String := "python"

/-- Command construction of `_execute_single_update`, lines 1250-1316:
`none` means no known upgrade procedure (the function then reports
failure without invoking anything).  The Winget branch interpolates
`app.app_id` directly; a missing id is embedded as the empty string. -/
def buildCommand (a : AppInfo) : Option (List String) :=
  let target_ver := a.latest_version
  if a.source = "Winget" then
    some (["winget", "upgrade", "--id", a.app_id.getD "",
           "--accept-source-agreements", "--accept-package-agreements"] ++
          (if target_ver ≠ "" then ["-v", target_ver] else []))
  else if a.source = "Chocolatey" then
    some (["choco", "upgrade", a.name, "-y"] ++
          (if target_ver ≠ "" then ["--version", target_ver] else []))
  else if a.source = "NPM" then
    some ["npm", "install", "-g",
          a.name ++ (if target_ver ≠ "" then "@" ++ target_ver else "")]
  else if a.source = "PNPM" then
    some ["pnpm", "add", "-g",
          a.name ++ (if target_ver ≠ "" then "@" ++ target_ver else "")]
  else if a.source = "Bun" then
    some ["bun", "add", "-g",
          a.name ++ (if target_ver ≠ "" then "@" ++ target_ver else "")]
  else if a.source = "Yarn" then
    some ["yarn", "global", "add",
          a.name ++ (if target_ver ≠ "" then "@" ++ target_ver else "")]
  else if a.source = "PIP" then
    some ([pythonExe, "-m", "pip", "install",
           a.name ++ (if target_ver ≠ "" then "==" ++ target_ver else "")] ++
          (if target_ver = "" then ["--upgrade"] else []))
  else if a.source = "PATH" then
    if a.name = "bun" then some ["bun", "upgrade"]
    else if a.name = "deno" then
      some (["deno", "upgrade"] ++
            (if target_ver ≠ "" then ["--version", target_ver] else []))
    else if a.name = "git" then some ["git", "update-git-for-windows", "-y"]
    else if a.name = "pwsh" then
      some ["powershell", "-Command",
            "iex \"& \x7b $(irm https://aka.ms/install-powershell.ps1) \x7d\""]
    else if a.name = "yarn" then
      some ["npm", "install", "-g",
            if target_ver ≠ "" then "yarn@" ++ target_ver else "yarn"]
    else none
  else none

/-- One step of the loop of `execute_updates`, lines 1224-1243: in
dry-run mode record a success without building or running anything;
otherwise run `_execute_single_update`, whose success is
`bool(run_command(cmd))` when a command exists and `False` otherwise.
The accumulator carries the per-item success reports and every argv
passed to the Process Invoker. -/
def execStep (dry_run : Bool) (runner : List String → Option String)
    (acc : List Bool × List (List String)) (a : AppInfo) :
    List Bool × List (List String) :=
  if dry_run then (acc.1 ++ [true], acc.2)
  else
    match buildCommand a with
    | some cmd => (acc.1 ++ [(runner cmd).isSome], acc.2 ++ [cmd])
    | none => (acc.1 ++ [false], acc.2)

/-- Model of `UpdateExecutor.execute_updates`, lines 1212-1248: per-item success
reports and the list of commands handed to the Process Invoker. -/
def executeUpdates (dry_run : Bool) (runner : List String → Option String)
    (apps : List AppInfo) : List Bool × List (List String) :=
  apps.foldl (execStep dry_run runner) ([], [])

theorem executeUpdates_dry_aux (runner : List String → Option String)
    (apps : List AppInfo) (acc : List Bool × List (List String)) :
    apps.foldl (execStep true runner) acc =
      (acc.1 ++ apps.map (fun _ => true), acc.2) := by
  induction apps generalizing acc with
  | nil => simp
  | cons a rest ih =>
    rw [List.foldl_cons, ih]
    simp [execStep]

/-- Claim C8: executing updates in dry-run mode never invokes the Process
Invoker — whatever the invoker oracle would answer, the list of commands
run is empty — and reports every item as a success. -/
theorem C8_dry_run (runner : List String → Option String)
    (apps : List AppInfo) :
    executeUpdates true runner apps = (apps.map (fun _ => true), []) := by
  unfold executeUpdates
  rw [executeUpdates_dry_aux]
  simp

/-- Witness for C8 on a one-item list with an oracle that would fail
every command it was given. -/
theorem C8_witness :
    executeUpdates true (fun _ => none) [npmDemoApp] = ([true], []) :=
  C8_dry_run (fun _ => none) [npmDemoApp]

/-! ### Scan merge (`SystemUpdateApp.run`, lines 1460-1462)

After the parallel scan, the merged list is deduplicated with the dict
comprehension over the key `name + "|" + version` and sorted by
`(source, name)`.  A Python dict keeps one entry per key at the position
of the key's first insertion, but a repeated insertion overwrites the
stored value, so the retained value for a duplicated key is the **last**
occurrence.  The dict is embedded as an association list with exactly
that insert-or-overwrite behaviour, and `sorted(key=(source, name))` as
a sort by the lexicographic order on `(source, name)`. -/

/-- The deduplication key `f"{a.name}|{a.version}"` of line 1461 (the
same key is used by the registry scanner's own dedup at line 813). -/
def dedupKey (a : AppInfo) : String :=
  a.name ++ "|" ++ a.version

/-- One Python dict insertion `d[k] = v`: overwrite in place when the key
is present, append otherwise. -/
def dictInsert (d : List (String × AppInfo)) (k : String) (v : AppInfo) :
    List (String × AppInfo) :=
  if d.any (fun p => p.1 == k) then
    d.map (fun p => if p.1 == k then (k, v) else p)
  else
    d ++ [(k, v)]

/-- The dict comprehension of line 1461. -/
def dedupDict (apps : List AppInfo) : List (String × AppInfo) :=
  apps.foldl (fun d a => dictInsert d (dedupKey a) a) []

/-- The sort key of line 1462: ascending lexicographic `(source, name)`. -/
def leKeyR (a b : AppInfo) : Prop :=
  a.source < b.source ∨ (a.source = b.source ∧ a.name ≤ b.name)

instance : DecidableRel leKeyR := fun a b => by
  unfold leKeyR
  exact inferInstance

/-- Lines 1461-1462: `.values()` of the dict comprehension, then
`sorted(key=lambda x: (x.source, x.name))`. -/
def mergeStep (apps : List AppInfo) : List AppInfo :=
  List.insertionSort leKeyR ((dedupDict apps).map Prod.snd)

instance : IsTotal AppInfo leKeyR where
  total a b := by
    unfold leKeyR
    rcases lt_trichotomy a.source b.source with h | h | h
    · exact Or.inl (Or.inl h)
    · rcases le_total a.name b.name with hn | hn
      · exact Or.inl (Or.inr ⟨h, hn⟩)
      · exact Or.inr (Or.inr ⟨h.symm, hn⟩)
    · exact Or.inr (Or.inl h)

instance : IsTrans AppInfo leKeyR where
  trans a b c hab hbc := by
    unfold leKeyR at hab hbc ⊢
    rcases hab with h1 | ⟨e1, n1⟩
    · rcases hbc with h2 | ⟨e2, n2⟩
      · exact Or.inl (h1.trans h2)
      · exact Or.inl (lt_of_lt_of_le h1 (le_of_eq e2))
    · rcases hbc with h2 | ⟨e2, n2⟩
      · exact Or.inl (lt_of_le_of_lt (le_of_eq e1) h2)
      · exact Or.inr ⟨e1.trans e2, n1.trans n2⟩

/-- Two items with distinct `(name, version)` but the same merge key. -/
def pipeA : AppInfo :=
  { name := "a|b", source := "PIP", version := "c" }

/-- See `pipeA`. -/
def pipeB : AppInfo :=
  { name := "a", source := "PIP", version := "b|c" }

/-- Claim C10: two items with distinct `(name, version)` pairs are
collapsed into one retained item by the merge step, because the
deduplication key `name + "|" + version` is not injective when a name or
version itself contains `|`: name `a|b` version `c` and name `a` version
`b|c` share the key `a|b|c`. -/
theorem C10_key_collision :
    pipeA.name ≠ pipeB.name
  ∧ pipeA.version ≠ pipeB.version
  ∧ dedupKey pipeA = dedupKey pipeB
  ∧ mergeStep [pipeA, pipeB] = [pipeB] := by decide

/-- Two same-key items that differ in their payload (`app_id`). -/
def dupA : AppInfo :=
  { name := "n", source := "Winget", version := "1.0", app_id := some "idA" }

/-- See `dupA`. -/
def dupB : AppInfo :=
  { name := "n", source := "Winget", version := "1.0", app_id := some "idB" }

/-- Counterexample to claim C1 as stated: with two distinct items sharing
`(name, version)`, the merge retains the **last** occurrence (`dupB`),
not the first one, because the dict comprehension of line 1461 overwrites
the stored value on a repeated key. -/
theorem C1_counterexample :
    mergeStep [dupA, dupB] = [dupB] ∧ dupB ≠ dupA := by decide

theorem dictInsert_fst (d : List (String × AppInfo)) (k : String) (v : AppInfo) :
    (dictInsert d k v).map Prod.fst =
      if d.any (fun p => p.1 == k) then d.map Prod.fst
      else d.map Prod.fst ++ [k] := by
  unfold dictInsert
  split_ifs with h
  · rw [List.map_map]
    refine List.map_congr_left ?_
    intro p hp
    simp only [Function.comp_apply]
    by_cases hpk : (p.1 == k) = true
    · rw [if_pos hpk]
      exact (eq_of_beq hpk).symm
    · rw [if_neg hpk]
  · rw [List.map_append]
    rfl

theorem dedupDict_keys_nodup_aux (l : List AppInfo)
    (d : List (String × AppInfo)) (hd : (d.map Prod.fst).Nodup) :
    ((l.foldl (fun d a => dictInsert d (dedupKey a) a) d).map Prod.fst).Nodup := by
  induction l generalizing d with
  | nil => exact hd
  | cons a t ih =>
    rw [List.foldl_cons]
    apply ih
    rw [dictInsert_fst]
    split_ifs with h
    · exact hd
    · have hk : dedupKey a ∉ d.map Prod.fst := by
        intro hmem
        rcases List.mem_map.mp hmem with ⟨p, hp, he⟩
        exact h (List.any_eq_true.mpr ⟨p, hp, by rw [he]; exact beq_self_eq_true _⟩)
      rw [List.nodup_append]
      exact ⟨hd, List.nodup_singleton _, by simp [List.disjoint_singleton, hk]⟩

theorem dedupDict_keys_nodup (apps : List AppInfo) :
    ((dedupDict apps).map Prod.fst).Nodup :=
  dedupDict_keys_nodup_aux apps [] (by simp)

theorem dictInsert_entry_key (d : List (String × AppInfo)) (v : AppInfo)
    (hd : ∀ p ∈ d, dedupKey p.2 = p.1) :
    ∀ p ∈ dictInsert d (dedupKey v) v, dedupKey p.2 = p.1 := by
  intro p hp
  unfold dictInsert at hp
  split_ifs at hp with h
  · rcases List.mem_map.mp hp with ⟨q, hq, he⟩
    by_cases hqk : (q.1 == dedupKey v) = true
    · rw [if_pos hqk] at he
      rw [← he]
    · rw [if_neg hqk] at he
      rw [← he]
      exact hd q hq
  · rcases List.mem_append.mp hp with h1 | h1
    · exact hd p h1
    · rw [List.mem_singleton] at h1
      subst h1
      rfl

theorem dedupDict_entry_key_aux (l : List AppInfo)
    (d : List (String × AppInfo)) (hd : ∀ p ∈ d, dedupKey p.2 = p.1) :
    ∀ p ∈ l.foldl (fun d a => dictInsert d (dedupKey a) a) d,
      dedupKey p.2 = p.1 := by
  induction l generalizing d with
  | nil => exact hd
  | cons a t ih =>
    rw [List.foldl_cons]
    exact ih _ (dictInsert_entry_key d a hd)

theorem dedupDict_entry_key (apps : List AppInfo) :
    ∀ p ∈ dedupDict apps, dedupKey p.2 = p.1 :=
  dedupDict_entry_key_aux apps [] (by intro p hp; cases hp)

/-- Looking up a dict key: the stored value, if any. -/
def dictFind (d : List (String × AppInfo)) (k : String) : Option AppInfo :=
  (d.find? (fun p => p.1 == k)).map Prod.snd

theorem find_map_overwrite (d : List (String × AppInfo)) (k : String)
    (v : AppInfo) (h : d.any (fun p => p.1 == k) = true) :
    (d.map (fun p => if p.1 == k then (k, v) else p)).find?
      (fun p => p.1 == k) = some (k, v) := by
  induction d with
  | nil => cases h
  | cons p t ih =>
    rw [List.map_cons]
    by_cases hp : (p.1 == k) = true
    · rw [if_pos hp]
      exact List.find?_cons_of_pos _ (beq_self_eq_true k)
    · rw [if_neg hp]
      rw [List.find?_cons_of_neg _ (by simp [hp])]
      apply ih
      rw [List.any_cons] at h
      simp only [hp, Bool.false_or] at h
      exact h

theorem find_append_single (d : List (String × AppInfo)) (k : String)
    (v : AppInfo) (h : d.any (fun p => p.1 == k) = false) :
    (d ++ [(k, v)]).find? (fun p => p.1 == k) = some (k, v) := by
  induction d with
  | nil => exact List.find?_cons_of_pos _ (beq_self_eq_true k)
  | cons p t ih =>
    rw [List.cons_append]
    rw [List.any_cons, Bool.or_eq_false_iff] at h
    rw [List.find?_cons_of_neg _ (by simp [h.1])]
    exact ih h.2

theorem dictFind_insert_self (d : List (String × AppInfo)) (k : String)
    (v : AppInfo) : dictFind (dictInsert d k v) k = some v := by
  unfold dictFind dictInsert
  split_ifs with h
  · rw [find_map_overwrite d k v h]
    rfl
  · simp only [Bool.not_eq_true] at h
    rw [find_append_single d k v h]
    rfl

theorem find_map_ne (d : List (String × AppInfo)) (k : String) (v : AppInfo)
    (k' : String) (hne : k' ≠ k) :
    (d.map (fun p => if p.1 == k then (k, v) else p)).find?
        (fun p => p.1 == k') =
      d.find? (fun p => p.1 == k') := by
  induction d with
  | nil => rfl
  | cons p t ih =>
    rw [List.map_cons]
    by_cases hp : (p.1 == k) = true
    · rw [if_pos hp]
      have h1 : (((k, v) : String × AppInfo).1 == k') = false :=
        beq_eq_false_iff_ne.mpr (fun he => hne he.symm)
      have h2 : (p.1 == k') = false := by
        rw [eq_of_beq hp]
        exact beq_eq_false_iff_ne.mpr (fun he => hne he.symm)
      rw [List.find?_cons_of_neg _ (by simp [h1]),
          List.find?_cons_of_neg _ (by simp [h2])]
      exact ih
    · rw [if_neg hp]
      by_cases hq : (p.1 == k') = true
      · have e1 : (p :: (t.map (fun p => if p.1 == k then (k, v) else p))).find?
            (fun p => p.1 == k') = some p := List.find?_cons_of_pos _ hq
        have e2 : (p :: t).find? (fun p => p.1 == k') = some p :=
          List.find?_cons_of_pos _ hq
        rw [e1, e2]
      · rw [List.find?_cons_of_neg _ (by simp [hq]),
            List.find?_cons_of_neg _ (by simp [hq])]
        exact ih

theorem find_append_single_ne (d : List (String × AppInfo)) (k : String)
    (v : AppInfo) (k' : String) (hne : k' ≠ k) :
    (d ++ [(k, v)]).find? (fun p => p.1 == k') =
      d.find? (fun p => p.1 == k') := by
  rw [List.find?_append]
  have h0 : ([((k, v) : String × AppInfo)].find? (fun p => p.1 == k')) = none := by
    rw [List.find?_cons_of_neg _ ?_, List.find?_nil]
    simp [beq_eq_false_iff_ne.mpr (fun he : k = k' => hne he.symm)]
  rw [h0]
  cases d.find? (fun p => p.1 == k') <;> rfl

theorem dictFind_insert_ne (d : List (String × AppInfo)) (k : String)
    (v : AppInfo) (k' : String) (hne : k' ≠ k) :
    dictFind (dictInsert d k v) k' = dictFind d k' := by
  unfold dictFind dictInsert
  split_ifs with h
  · rw [find_map_ne d k v k' hne]
  · rw [find_append_single_ne d k v k' hne]

theorem dedupDict_append_singleton (l : List AppInfo) (x : AppInfo) :
    dedupDict (l ++ [x]) = dictInsert (dedupDict l) (dedupKey x) x := by
  unfold dedupDict
  rw [List.foldl_append, List.foldl_cons, List.foldl_nil]

/-- The dict stores, for each key, the last occurrence with that key. -/
theorem dedupDict_find (apps : List AppInfo) (k : String) :
    dictFind (dedupDict apps) k =
      (apps.filter (fun a => dedupKey a == k)).getLast? := by
  induction apps using List.reverseRecOn with
  | nil => rfl
  | append_singleton l x ih =>
    rw [dedupDict_append_singleton]
    by_cases hk : (dedupKey x == k) = true
    · have hkk : k = dedupKey x := (eq_of_beq hk).symm
      rw [hkk, dictFind_insert_self]
      rw [List.filter_append]
      have hfx : List.filter (fun a => dedupKey a == dedupKey x) [x] = [x] := by
        simp [List.filter, beq_self_eq_true]
      rw [hfx, List.getLast?_concat]
    · have hne : k ≠ dedupKey x := by
        intro he
        rw [he] at hk
        exact hk (beq_self_eq_true _)
      rw [dictFind_insert_ne _ _ _ _ hne]
      rw [List.filter_append]
      have hfx : List.filter (fun a => dedupKey a == k) [x] = [] := by
        simp only [List.filter]
        rw [show (dedupKey x == k) = false from Bool.not_eq_true _ ▸ hk]
      rw [hfx, List.append_nil]
      exact ih

theorem find_of_mem_nodup (d : List (String × AppInfo))
    (hnd : (d.map Prod.fst).Nodup) (p : String × AppInfo) (hp : p ∈ d) :
    d.find? (fun q => q.1 == p.1) = some p := by
  induction d with
  | nil => cases hp
  | cons q t ih =>
    rw [List.map_cons, List.nodup_cons] at hnd
    rcases List.mem_cons.mp hp with rfl | hp'
    · exact List.find?_cons_of_pos _ (beq_self_eq_true _)
    · have hq : (q.1 == p.1) = false := by
        refine beq_eq_false_iff_ne.mpr ?_
        intro he
        exact hnd.1 (he ▸ List.mem_map_of_mem Prod.fst hp')
      rw [List.find?_cons_of_neg _ (by simp [hq])]
      exact ih hnd.2 hp'

/-- Claim C1, amended: after a full scan merge, the retained item list
contains no two items with identical `(name, version)`; duplicates are
resolved by keeping the **last** occurrence from the merged adapter
results (the dict comprehension overwrites on repeated keys); every
input key is represented; and the final list is sorted by
`(source, name)`. -/
theorem C1_merge (apps : List AppInfo) :
    List.Pairwise (fun x y => ¬(x.name = y.name ∧ x.version = y.version))
      (mergeStep apps)
  ∧ List.Sorted leKeyR (mergeStep apps)
  ∧ (∀ a ∈ mergeStep apps,
      (apps.filter (fun b => dedupKey b == dedupKey a)).getLast? = some a)
  ∧ (∀ a ∈ apps, ∃ b ∈ mergeStep apps, dedupKey b = dedupKey a) := by
  have hperm : List.Perm (mergeStep apps) ((dedupDict apps).map Prod.snd) :=
    List.perm_insertionSort leKeyR _
  have hnd := dedupDict_keys_nodup apps
  have hek := dedupDict_entry_key apps
  refine ⟨?_, ?_, ?_, ?_⟩
  · have h1 : List.Pairwise (fun p q : String × AppInfo => p.1 ≠ q.1)
        (dedupDict apps) := List.pairwise_map.mp hnd
    have h2 : List.Pairwise (fun x y : AppInfo => dedupKey x ≠ dedupKey y)
        ((dedupDict apps).map Prod.snd) := by
      rw [List.pairwise_map]
      refine h1.imp_of_mem ?_
      intro p q hp hq hne hc
      exact hne (((hek p hp).symm.trans hc).trans (hek q hq))
    have h3 := (hperm.pairwise_iff (fun h => Ne.symm h)).mpr h2
    refine h3.imp ?_
    intro x y hne hc
    exact hne (by unfold dedupKey; rw [hc.1, hc.2])
  · exact List.sorted_insertionSort leKeyR _
  · intro a ha
    have ham : a ∈ (dedupDict apps).map Prod.snd := hperm.subset ha
    rcases List.mem_map.mp ham with ⟨p, hp, he⟩
    have hfind := find_of_mem_nodup _ hnd p hp
    have hkey : dedupKey a = p.1 := by rw [← he]; exact hek p hp
    rw [← dedupDict_find apps (dedupKey a)]
    unfold dictFind
    rw [hkey, hfind]
    simp [he]
  · intro a ha
    have hfil : a ∈ apps.filter (fun b => dedupKey b == dedupKey a) :=
      List.mem_filter.mpr ⟨ha, beq_self_eq_true _⟩
    obtain ⟨b, hb⟩ := Option.isSome_iff_exists.mp
      (List.getLast?_isSome.mpr (List.ne_nil_of_mem hfil))
    have hdict : dictFind (dedupDict apps) (dedupKey a) = some b := by
      rw [dedupDict_find]
      exact hb
    unfold dictFind at hdict
    rcases ho : (dedupDict apps).find? (fun p => p.1 == dedupKey a) with _ | p
    · rw [ho] at hdict
      cases hdict
    · rw [ho] at hdict
      have hpb : p.2 = b := by
        simpa using hdict
      have hpm : p ∈ dedupDict apps := List.mem_of_find?_eq_some ho
      refine ⟨b, ?_, ?_⟩
      · apply hperm.mem_iff.mpr
        rw [← hpb]
        exact List.mem_map_of_mem Prod.snd hpm
      · have hbeq := List.find?_some ho
        have hp1 : p.1 = dedupKey a := eq_of_beq hbeq
        rw [← hpb, hek p hpm]
        exact hp1

/-- Witness for the amended C1 on the two-item duplicate list. -/
theorem C1_witness :
    (([dupA, dupB].filter (fun b => dedupKey b == dedupKey dupB)).getLast? =
      some dupB)
  ∧ (∃ b ∈ mergeStep [dupA, dupB], dedupKey b = dedupKey dupA) := by
  refine ⟨(C1_merge [dupA, dupB]).2.2.1 dupB ?_,
          (C1_merge [dupA, dupB]).2.2.2 dupA ?_⟩
  · decide
  · decide
